import Mathlib

/-!
Verification of the yt-transcriptor core against its specification.

The developments below shallowly embed the Python sources
`sentiment_analyzer.py`, `app/web_content_service.py` and
`app/transcript_service.py`: pure functions become Lean functions on
`List Char` / `String`, floats become `ℚ`, dictionaries become structures,
and external collaborators (the NLTK sentiment scorer, the network-backed
extraction strategies) are passed in as parameters.
-/

namespace YT

/-! ## Python text primitives

`isWs` models Python's `\s` / `str.strip` whitespace class (ASCII part),
`isDig` models `\d`, `isWordChar` models `\w` (ASCII part). -/

def isWs (c : Char) : Bool :=
  c = ' ' || c = '\t' || c = '\n' || c = '\r' || c = '\x0b' || c = '\x0c'

def isDig (c : Char) : Bool :=
  '0' ≤ c && c ≤ '9'

def isWordChar (c : Char) : Bool :=
  c.isAlpha || isDig c || c = '_'

/-- Python `re.sub(r'\s+', ' ', s)`: every maximal run of whitespace
characters is replaced by a single space.  The boolean argument records
whether the previous character belonged to a whitespace run. -/
def collapseAux : Bool → List Char → List Char
  | _, [] => []
  | prev, c :: rest =>
    if isWs c then
      if prev then collapseAux true rest else ' ' :: collapseAux true rest
    else c :: collapseAux false rest

def collapseWs (l : List Char) : List Char := collapseAux false l

/-- Python `str.strip()`: remove leading and trailing whitespace. -/
def pyStrip (l : List Char) : List Char :=
  ((l.dropWhile isWs).reverse.dropWhile isWs).reverse

def pyStripS (s : String) : String := String.mk (pyStrip s.data)

/-- Match the regex `\[\d+:\d+\]` at the head of the list; on success,
return the remainder of the list after the matched text.  The `\d+` pieces
are greedy, and since digits and `:` / `]` are disjoint, greedy matching is
maximal munch. -/
def matchTs : List Char → Option (List Char)
  | '[' :: rest =>
    if (rest.takeWhile isDig).isEmpty then none
    else
      match rest.dropWhile isDig with
      | ':' :: rest2 =>
        if (rest2.takeWhile isDig).isEmpty then none
        else
          match rest2.dropWhile isDig with
          | ']' :: rest3 => some rest3
          | _ => none
      | _ => none
  | _ => none

/-- Python `re.sub(r'\[\d+:\d+\]', '', s)`: scan left to right; at each
position either remove a timestamp match and continue after it, or keep the
character and advance by one.  The fuel argument only serves termination:
every step consumes at least one character, so fuel `l.length` (supplied by
`removeTs`) is never exhausted. -/
def removeTsAux : Nat → List Char → List Char
  | 0, l => l
  | _ + 1, [] => []
  | fuel + 1, c :: rest =>
    match matchTs (c :: rest) with
    | some rem => removeTsAux fuel rem
    | none => c :: removeTsAux fuel rest

def removeTs (l : List Char) : List Char := removeTsAux l.length l

/-- `SentimentAnalyzer.clean_transcript`: strip `[MM:SS]`-style timestamps,
collapse whitespace runs to single spaces, trim the ends. -/
def clean_transcript (transcript : String) : String :=
  String.mk (pyStrip (collapseWs (removeTs transcript.data)))

/-- Adjacent characters are not both whitespace (used to state that
whitespace collapsing leaves no whitespace runs). -/
def okRun (a b : Char) : Prop := ¬(isWs a = true ∧ isWs b = true)

/-! ## Sentence segmentation

`SentimentAnalyzer.split_into_sentences`.  The two `re.split` calls are
embedded positionally: a lookbehind inspects the original subject string,
so whether the pattern matches at an index is a pure function of the
character list and the index. -/

/-- Character at index `i` (only consulted under explicit bounds guards). -/
def getC (cs : List Char) (i : Nat) : Char := cs.getD i ' '

/-- Does `re.split(r'(?<!\w\.\w.)(?<![A-Z][a-z]\.)(?<=\.|\?|\!)\s', text)`
match at index `i`?  The match itself is the single whitespace character at
`i`; the first lookbehind's final `.` excludes a newline. -/
def isSplit1 (cs : List Char) (i : Nat) : Bool :=
  decide (1 ≤ i) &&
  (getC cs (i - 1) = '.' || getC cs (i - 1) = '?' || getC cs (i - 1) = '!') &&
  isWs (getC cs i) &&
  !(decide (4 ≤ i) && isWordChar (getC cs (i - 4)) && (getC cs (i - 3) = '.') &&
    isWordChar (getC cs (i - 2)) && !(getC cs (i - 1) = '\n')) &&
  !(decide (3 ≤ i) && (getC cs (i - 3)).isUpper && (getC cs (i - 2)).isLower &&
    (getC cs (i - 1) = '.'))

/-- Split a list at the flagged (single-character, delimiter) positions,
removing the delimiters, as `re.split` does with a width-one pattern. -/
def chop : List (Char × Bool) → List (List Char)
  | [] => [[]]
  | (c, b) :: rest =>
    let r := chop rest
    if b then [] :: r
    else
      match r with
      | [] => [[c]]
      | p :: ps => (c :: p) :: ps

/-- First-pass split of `split_into_sentences`. -/
def split1 (s : String) : List String :=
  let cs := s.data
  (chop (cs.zip ((List.range cs.length).map (isSplit1 cs)))).map String.mk

/-- Try the second-pass pattern
`(?<=\,|\;)\s+|(?<=\sand\s)|(?<=\sbut\s)|(?<=\sor\s)|(?<=\sso\s)` at
index `p`, alternatives in order; on success return the match end.  The
first alternative consumes the maximal whitespace run; the lookbehind-only
alternatives produce empty matches. -/
def tryAt2 (cs : List Char) (p : Nat) : Option Nat :=
  if decide (1 ≤ p) && decide (p < cs.length) &&
      (getC cs (p - 1) = ',' || getC cs (p - 1) = ';') && isWs (getC cs p) then
    some (p + ((cs.drop p).takeWhile isWs).length)
  else if decide (5 ≤ p) && isWs (getC cs (p - 5)) && (getC cs (p - 4) = 'a') &&
      (getC cs (p - 3) = 'n') && (getC cs (p - 2) = 'd') && isWs (getC cs (p - 1)) then
    some p
  else if decide (5 ≤ p) && isWs (getC cs (p - 5)) && (getC cs (p - 4) = 'b') &&
      (getC cs (p - 3) = 'u') && (getC cs (p - 2) = 't') && isWs (getC cs (p - 1)) then
    some p
  else if decide (4 ≤ p) && isWs (getC cs (p - 4)) && (getC cs (p - 3) = 'o') &&
      (getC cs (p - 2) = 'r') && isWs (getC cs (p - 1)) then
    some p
  else if decide (4 ≤ p) && isWs (getC cs (p - 4)) && (getC cs (p - 3) = 's') &&
      (getC cs (p - 2) = 'o') && isWs (getC cs (p - 1)) then
    some p
  else
    none

/-- Leftmost match of the second-pass pattern at or after `pos`:
the match's (start, end) span. -/
def findMatch2 (cs : List Char) (pos : Nat) : Option (Nat × Nat) :=
  (List.range (cs.length + 1)).findSome? fun p =>
    if p < pos then none else (tryAt2 cs p).map fun b => (p, b)

/-- The slice `text[a:b]`. -/
def slice (cs : List Char) (a b : Nat) : List Char := (cs.drop a).take (b - a)

/-- `re.split` scanning loop: emit the text between consecutive matches;
after an empty match the scan resumes one character later.  Every
iteration strictly advances the scan position, so the fuel supplied by
`split2` is never exhausted. -/
def split2Go (cs : List Char) : Nat → Nat → Nat → List (List Char)
  | 0, _, last => [cs.drop last]
  | fuel + 1, pos, last =>
    match findMatch2 cs pos with
    | none => [cs.drop last]
    | some (a, b) =>
      slice cs last a :: split2Go cs fuel (if b = a then b + 1 else b) b

/-- Second-pass split of `split_into_sentences`. -/
def split2 (s : String) : List String :=
  (split2Go s.data (s.data.length + 2) 0 0).map String.mk

/-- `SentimentAnalyzer.split_into_sentences`: coarse split on sentence
punctuation, sub-split of long pieces on pauses/conjunctions, strip, and a
final 20-to-200 trimmed-length band filter. -/
def split_into_sentences (text : String) : List String :=
  let raw_splits := split1 text
  let sentences := raw_splits.foldl
    (fun sentences raw =>
      if 100 < (pyStripS raw).length then
        sentences ++ ((split2 raw).filter fun s => decide (20 < (pyStripS s).length)).map pyStripS
      else
        sentences ++ [pyStripS raw])
    []
  sentences.filter fun s =>
    decide (20 < (pyStripS s).length) && decide ((pyStripS s).length < 200)

/-! ## Sentiment scoring and ranking

`SentimentAnalyzer.get_top_quotes` and `format_quote`.  The NLTK VADER
scorer (`SentimentIntensityAnalyzer.polarity_scores`) is an external
lexicon model, so it is passed in as a parameter; its float scores are
modelled as rationals. -/

/-- The dictionary returned by `polarity_scores`. -/
structure SentimentScores where
  compound : ℚ
  pos : ℚ
  neg : ℚ
  neu : ℚ
deriving DecidableEq

/-- One entry of `analyzed_sentences` in `get_top_quotes`. -/
structure AnalyzedSentence where
  text : String
  compound : ℚ
  positive : ℚ
  negative : ℚ
  neutral : ℚ
deriving DecidableEq

/-- One entry of the returned `top_quotes` list. -/
structure RankedQuote where
  quote : String
  score : ℚ
deriving DecidableEq

/-- `SentimentAnalyzer.format_quote`: truncate over-long text to 197
characters plus an ellipsis, squeeze double spaces, strip, and wrap in
literal double quotes. -/
def format_quote (text : String) : String :=
  let text := if 200 < text.length then String.mk (text.data.take 197) ++ "..." else text
  let text := String.mk (pyStrip ((text.replace "  " " ").data))
  "\"" ++ text ++ "\""

/-- Comparator for `sorted(..., key=lambda x: x['compound'], reverse=True)`:
a stable descending sort by compound score. -/
def leDesc (a b : AnalyzedSentence) : Bool := decide (b.compound ≤ a.compound)

/-- Comparator for `sorted(..., key=lambda x: x['compound'])`:
a stable ascending sort by compound score. -/
def leAsc (a b : AnalyzedSentence) : Bool := decide (a.compound ≤ b.compound)

/-- The filter-sort-truncate-format tail of `get_top_quotes` (source lines
79-96), as a function of the analyzed sentences: Python's `sorted` is a
stable sort, modelled with `List.mergeSort`. -/
def rank_quotes (analyzed_sentences : List AnalyzedSentence) (top_n : ℕ)
    (sentiment_type : String) : List RankedQuote :=
  let filtered_sentences :=
    if sentiment_type = "positive" then
      (analyzed_sentences.filter fun s => decide ((0.2 : ℚ) < s.compound)).mergeSort leDesc
    else
      (analyzed_sentences.filter fun s => decide (s.compound < -(0.2 : ℚ))).mergeSort leAsc
  (filtered_sentences.take top_n).map fun s => ⟨format_quote s.text, s.compound⟩

/-- `SentimentAnalyzer.get_top_quotes`, with the external VADER scorer as
a parameter. -/
def get_top_quotes (polarity_scores : String → SentimentScores) (transcript : String)
    (top_n : ℕ) (sentiment_type : String) : List RankedQuote :=
  let cleaned_text := clean_transcript transcript
  let sentences := split_into_sentences cleaned_text
  let analyzed_sentences := sentences.map fun sentence =>
    let sentiment := polarity_scores sentence
    ⟨sentence, sentiment.compound, sentiment.pos, sentiment.neg, sentiment.neu⟩
  rank_quotes analyzed_sentences top_n sentiment_type

/-! ## Web content extraction coordinator

`WebContentService.extract_content`.  The three strategies perform network
I/O, so they are passed in as parameters producing result dictionaries;
a URL is modelled by the `urlparse` components the coordinator consults.
`extract_content` also returns the list of strategies it invoked, in
invocation order, mirroring the sequential control flow. -/

/-- The components of `urlparse(url)` read by `is_valid_url`. -/
structure Url where
  scheme : String
  netloc : String
deriving DecidableEq

/-- `WebContentService.is_valid_url`: `all([result.scheme, result.netloc])`
with Python string truthiness. -/
def is_valid_url (url : Url) : Bool :=
  url.scheme != "" && url.netloc != ""

/-- The keys of a strategy's result dictionary that the coordinator reads:
`"status"`, `"text"` (absent on failure, hence optional) and `"message"`. -/
structure ExtractResult where
  status : String
  text : Option String
  message : Option String
deriving DecidableEq

inductive Strategy
  | trafilatura
  | newspaper3k
  | beautifulsoup
deriving DecidableEq

/-- Python truthiness of `result.get("text")`: a missing key or an empty
string is falsy. -/
def textTruthy : Option String → Bool
  | none => false
  | some t => t != ""

def textLen : Option String → Nat
  | none => 0
  | some t => t.length

/-- The quality gate on the first two strategies:
`result["status"] == "success" and result.get("text") and len(result["text"]) > 200`. -/
def gateOk (r : ExtractResult) : Bool :=
  (r.status == "success") && textTruthy r.text && decide (200 < textLen r.text)

/-- `result["status"] == "success" and result.get("text")`. -/
def successNonempty (r : ExtractResult) : Bool :=
  (r.status == "success") && textTruthy r.text

def invalid_url_result : ExtractResult :=
  { status := "error", text := none, message := some "Invalid URL format" }

def all_failed_result : ExtractResult :=
  { status := "error", text := none,
    message := some "Failed to extract content from the URL using all available methods" }

/-- `WebContentService.extract_content`, returning the surfaced result
together with the strategies invoked, in order. -/
def extract_content (traf news bs : Url → ExtractResult) (url : Url) :
    ExtractResult × List Strategy :=
  if !(is_valid_url url) then (invalid_url_result, [])
  else
    let trafilatura_result := traf url
    if gateOk trafilatura_result then (trafilatura_result, [Strategy.trafilatura])
    else
      let newspaper_result := news url
      if gateOk newspaper_result then
        (newspaper_result, [Strategy.trafilatura, Strategy.newspaper3k])
      else
        let bs_result := bs url
        if successNonempty bs_result then
          (bs_result, [Strategy.trafilatura, Strategy.newspaper3k, Strategy.beautifulsoup])
        else
          match [trafilatura_result, newspaper_result, bs_result].find? successNonempty with
          | some result =>
            (result, [Strategy.trafilatura, Strategy.newspaper3k, Strategy.beautifulsoup])
          | none =>
            (all_failed_result,
              [Strategy.trafilatura, Strategy.newspaper3k, Strategy.beautifulsoup])

/-- The fallback rule exactly as the specification words it: the first
strategy result, in priority order, with success status and non-empty body
text.  Stated for comparison with what `extract_content` actually does. -/
def spec_first_success (tr nr br : ExtractResult) : Option ExtractResult :=
  [tr, nr, br].find? successNonempty

/-! ## Transcript formatting

`TranscriptService.format_transcript`.  Caption segments carry a float
start offset, modelled as a rational.  `int(q // 60)` is `⌊q / 60⌋`, and
`int(q % 60)` is `⌊q - 60·⌊q / 60⌋⌋` (the Python float modulus is
non-negative for a positive divisor, so `int` truncation equals floor). -/

structure TranscriptSegment where
  text : String
  start : ℚ
deriving DecidableEq

def pyMinutes (q : ℚ) : ℤ := ⌊q / 60⌋

def pySeconds (q : ℚ) : ℤ := ⌊q - 60 * (pyMinutes q : ℚ)⌋

/-- Python `f"{i:02d}"`: left-pad with a zero to width two. -/
def pad2 (i : ℤ) : String :=
  if 0 ≤ i ∧ i < 10 then "0" ++ toString i else toString i

/-- The line rendered for one segment:
`f"[{minutes:02d}:{seconds:02d}]"` followed by a space, the text, and a
newline. -/
def formatItem (item : TranscriptSegment) : String :=
  let timestamp := "[" ++ pad2 (pyMinutes item.start) ++ ":" ++ pad2 (pySeconds item.start) ++ "]"
  timestamp ++ " " ++ item.text ++ "\n"

/-- `TranscriptService.format_transcript`: the accumulating loop. -/
def format_transcript (transcript_data : List TranscriptSegment) : String :=
  transcript_data.foldl (fun formatted_text item => formatted_text ++ formatItem item) ""

/-- Checks the `[MM:SS] ` shape claimed for a rendered line: an opening
bracket, exactly two digits, a colon, exactly two digits, a closing
bracket, a space. -/
def isMMSSLine (s : String) : Bool :=
  decide (8 ≤ s.data.length) &&
  (getC s.data 0 = '[') && (getC s.data 1).isDigit && (getC s.data 2).isDigit &&
  (getC s.data 3 = ':') && (getC s.data 4).isDigit && (getC s.data 5).isDigit &&
  (getC s.data 6 = ']') && (getC s.data 7 = ' ')

/-- Checks that a string is exactly two digit characters. -/
def twoDigitStr (s : String) : Bool :=
  match s.data with
  | [a, b] => a.isDigit && b.isDigit
  | _ => false

/-! ## Concrete fixtures used by counterexamples and witnesses -/

def demo_url : Url := { scheme := "https", netloc := "example.com" }

def traf_partial : ExtractResult :=
  { status := "success", text := some (String.mk (List.replicate 50 'a')), message := none }

def traf_200 : ExtractResult :=
  { status := "success", text := some (String.mk (List.replicate 200 'b')), message := none }

def traf_201 : ExtractResult :=
  { status := "success", text := some (String.mk (List.replicate 201 'c')), message := none }

def news_failed : ExtractResult :=
  { status := "error", text := none,
    message := some "Error extracting with newspaper3k: timeout" }

def bs_partial : ExtractResult :=
  { status := "success", text := some "short scraped text", message := none }

def bs_failed : ExtractResult :=
  { status := "error", text := none,
    message := some "Error extracting with BeautifulSoup: timeout" }

def long_segment : TranscriptSegment := { text := "hi", start := 6000 }

/-! ## Whitespace-normalization lemmas

These support the (amended) idempotence claim about `clean_transcript`:
after one pass, the text contains no whitespace except single interior
spaces, so collapsing and stripping it again is a no-op. -/

theorem head_collapseAux_true :
    ∀ (l : List Char) (c : Char), c ∈ (collapseAux true l).head? → isWs c = false := by
  intro l
  induction l with
  | nil => intro c hc; simp [collapseAux] at hc
  | cons a t ih =>
    intro c hc
    by_cases ha : isWs a = true
    · rw [show collapseAux true (a :: t) = collapseAux true t by simp [collapseAux, ha]] at hc
      exact ih c hc
    · rw [show collapseAux true (a :: t) = a :: collapseAux false t by
        simp [collapseAux, ha]] at hc
      simp at hc
      subst hc
      simpa using ha

theorem mem_collapseAux_ws :
    ∀ (b : Bool) (l : List Char) (c : Char),
      c ∈ collapseAux b l → isWs c = true → c = ' ' := by
  intro b l
  induction l generalizing b with
  | nil => intro c hc; simp [collapseAux] at hc
  | cons a t ih =>
    intro c hc hw
    by_cases ha : isWs a = true
    · cases b with
      | true =>
        rw [show collapseAux true (a :: t) = collapseAux true t by simp [collapseAux, ha]] at hc
        exact ih true c hc hw
      | false =>
        rw [show collapseAux false (a :: t) = ' ' :: collapseAux true t by
          simp [collapseAux, ha]] at hc
        rcases List.mem_cons.mp hc with h | h
        · exact h
        · exact ih true c h hw
    · rw [show collapseAux b (a :: t) = a :: collapseAux false t by
        simp [collapseAux, ha]] at hc
      rcases List.mem_cons.mp hc with h | h
      · subst h; exact absurd hw ha
      · exact ih false c h hw

theorem chain'_collapseAux :
    ∀ (l : List Char) (b : Bool), List.Chain' okRun (collapseAux b l) := by
  intro l
  induction l with
  | nil => intro b; simp [collapseAux]
  | cons a t ih =>
    intro b
    by_cases ha : isWs a = true
    · cases b with
      | true =>
        rw [show collapseAux true (a :: t) = collapseAux true t by simp [collapseAux, ha]]
        exact ih true
      | false =>
        rw [show collapseAux false (a :: t) = ' ' :: collapseAux true t by
          simp [collapseAux, ha]]
        refine List.chain'_cons'.mpr ⟨?_, ih true⟩
        intro y hy
        have := head_collapseAux_true t y hy
        intro hcon
        rw [this] at hcon
        exact Bool.false_ne_true hcon.2
    · rw [show collapseAux b (a :: t) = a :: collapseAux false t by simp [collapseAux, ha]]
      refine List.chain'_cons'.mpr ⟨?_, ih false⟩
      intro y _ hcon
      exact ha hcon.1

theorem chain'_of_suffix {R : Char → Char → Prop} {l₁ l₂ : List Char}
    (h : l₁ <:+ l₂) (hc : List.Chain' R l₂) : List.Chain' R l₁ := by
  obtain ⟨t, ht⟩ := h
  subst ht
  exact hc.right_of_append

theorem okRun_symm {a b : Char} (h : okRun a b) : okRun b a := by
  intro hcon
  exact h ⟨hcon.2, hcon.1⟩

theorem chain'_reverse_okRun {l : List Char} (h : List.Chain' okRun l) :
    List.Chain' okRun l.reverse := by
  rw [List.chain'_reverse]
  exact h.imp (fun _ _ hab => okRun_symm hab)

theorem chain'_pyStrip {l : List Char} (h : List.Chain' okRun l) :
    List.Chain' okRun (pyStrip l) := by
  unfold pyStrip
  apply chain'_reverse_okRun
  apply chain'_of_suffix (List.dropWhile_suffix isWs)
  apply chain'_reverse_okRun
  exact chain'_of_suffix (List.dropWhile_suffix isWs) h

theorem mem_pyStrip {l : List Char} {c : Char} (h : c ∈ pyStrip l) : c ∈ l := by
  unfold pyStrip at h
  rw [List.mem_reverse] at h
  have h2 := (List.dropWhile_sublist (l := (l.dropWhile isWs).reverse) isWs).mem h
  rw [List.mem_reverse] at h2
  exact (List.dropWhile_sublist isWs).mem h2

theorem head_dropWhile_not (p : Char → Bool) :
    ∀ (l : List Char) (c : Char), c ∈ (l.dropWhile p).head? → p c = false := by
  intro l
  induction l with
  | nil => intro c hc; simp at hc
  | cons a t ih =>
    intro c hc
    by_cases ha : p a = true
    · rw [List.dropWhile_cons_of_pos ha] at hc
      exact ih c hc
    · rw [List.dropWhile_cons_of_neg ha] at hc
      simp at hc
      subst hc
      simpa using ha

theorem dropWhile_dropWhile (p : Char → Bool) (l : List Char) :
    (l.dropWhile p).dropWhile p = l.dropWhile p := by
  induction l with
  | nil => simp
  | cons a t ih =>
    by_cases ha : p a = true
    · rw [List.dropWhile_cons_of_pos ha]; exact ih
    · rw [List.dropWhile_cons_of_neg ha, List.dropWhile_cons_of_neg ha]

theorem dropWhile_eq_self_of_head (p : Char → Bool) (l : List Char)
    (h : ∀ c ∈ l.head?, p c = false) : l.dropWhile p = l := by
  cases l with
  | nil => simp
  | cons a t =>
    have := h a (by simp)
    rw [List.dropWhile_cons_of_neg (by simp [this])]

theorem getLast?_dropWhile (p : Char → Bool) (l : List Char)
    (h : l.dropWhile p ≠ []) : (l.dropWhile p).getLast? = l.getLast? := by
  obtain ⟨t, ht⟩ := List.dropWhile_suffix (l := l) p
  conv_rhs => rw [← ht]
  exact (List.getLast?_append_of_ne_nil t h).symm

/-- `pyStrip` is idempotent. -/
theorem pyStrip_idem (l : List Char) : pyStrip (pyStrip l) = pyStrip l := by
  by_cases hw : (l.dropWhile isWs).reverse.dropWhile isWs = []
  · have h0 : pyStrip l = [] := by unfold pyStrip; rw [hw]; rfl
    rw [h0]
    rfl
  · have hdl : (pyStrip l).dropWhile isWs = pyStrip l := by
      apply dropWhile_eq_self_of_head
      intro c hc
      unfold pyStrip at hc
      rw [List.head?_reverse] at hc
      rw [getLast?_dropWhile isWs _ hw] at hc
      rw [List.getLast?_reverse] at hc
      exact head_dropWhile_not isWs l c hc
    have hrev : (pyStrip l).reverse = (l.dropWhile isWs).reverse.dropWhile isWs := by
      unfold pyStrip; rw [List.reverse_reverse]
    conv_lhs => rw [pyStrip]
    rw [hdl, hrev, dropWhile_dropWhile]
    unfold pyStrip
    rfl

theorem collapseAux_true_of_head (rest : List Char)
    (h : ∀ c ∈ rest.head?, isWs c = false) :
    collapseAux true rest = collapseAux false rest := by
  cases rest with
  | nil => rfl
  | cons a t =>
    have := h a (by simp)
    simp [collapseAux, this]

/-- A list with no adjacent whitespace in which every whitespace character
is a plain space is a fixpoint of whitespace collapsing. -/
theorem collapse_fix :
    ∀ (l : List Char), List.Chain' okRun l → (∀ c ∈ l, isWs c = true → c = ' ') →
      collapseAux false l = l := by
  intro l
  induction l with
  | nil => intro _ _; rfl
  | cons a t ih =>
    intro hchain hsp
    by_cases ha : isWs a = true
    · have haSp : a = ' ' := hsp a (by simp) ha
      have hhead : ∀ c ∈ t.head?, isWs c = false := by
        intro c hc
        have hok := (List.chain'_cons'.mp hchain).1 c hc
        by_contra hcon
        exact hok ⟨ha, by simpa using hcon⟩
      rw [show collapseAux false (a :: t) = ' ' :: collapseAux true t by
        simp [collapseAux, ha]]
      rw [collapseAux_true_of_head t hhead]
      rw [ih (List.chain'_cons'.mp hchain).2 (fun c hc hw => hsp c (by simp [hc]) hw)]
      rw [haSp]
    · rw [show collapseAux false (a :: t) = a :: collapseAux false t by
        simp [collapseAux, ha]]
      rw [ih (List.chain'_cons'.mp hchain).2 (fun c hc hw => hsp c (by simp [hc]) hw)]

/-- Collapsing then stripping is idempotent as a composite. -/
theorem stripCollapse_idem (z : List Char) :
    pyStrip (collapseWs (pyStrip (collapseWs z))) = pyStrip (collapseWs z) := by
  have hchain : List.Chain' okRun (pyStrip (collapseWs z)) :=
    chain'_pyStrip (chain'_collapseAux z false)
  have hsp : ∀ c ∈ pyStrip (collapseWs z), isWs c = true → c = ' ' := by
    intro c hc hw
    exact mem_collapseAux_ws false z c (mem_pyStrip hc) hw
  have hcol : collapseWs (pyStrip (collapseWs z)) = pyStrip (collapseWs z) :=
    collapse_fix _ hchain hsp
  rw [hcol]
  exact pyStrip_idem _

/-! ### Ranking lemmas -/

theorem leDesc_trans : ∀ a b c, leDesc a b = true → leDesc b c = true → leDesc a c = true := by
  intro a b c hab hbc
  simp [leDesc] at *
  exact hbc.trans hab

theorem leDesc_total : ∀ a b, (leDesc a b || leDesc b a) = true := by
  intro a b
  simp [leDesc]
  exact le_total b.compound a.compound

theorem leAsc_trans : ∀ a b c, leAsc a b = true → leAsc b c = true → leAsc a c = true := by
  intro a b c hab hbc
  simp [leAsc] at *
  exact hab.trans hbc

theorem leAsc_total : ∀ a b, (leAsc a b || leAsc b a) = true := by
  intro a b
  simp [leAsc]
  exact le_total a.compound b.compound

theorem leDesc_key : ∀ a b : AnalyzedSentence, a.compound = b.compound → leDesc a b = true := by
  intro a b h
  simp [leDesc, h]

theorem leAsc_key : ∀ a b : AnalyzedSentence, a.compound = b.compound → leAsc a b = true := by
  intro a b h
  simp [leAsc, h]

theorem pairwise_of_all {α : Type} {P : α → Prop} {R : α → α → Prop}
    (h : ∀ a b, P a → P b → R a b) :
    ∀ l : List α, (∀ a ∈ l, P a) → l.Pairwise R := by
  intro l
  induction l with
  | nil => intro _; exact List.Pairwise.nil
  | cons a t ih =>
    intro hall
    refine List.Pairwise.cons ?_ (ih fun x hx => hall x (by simp [hx]))
    intro b hb
    exact h a b (hall a (by simp)) (hall b (by simp [hb]))

/-- Stability of the embedded sort: restricting the sorted list to any
single compound-score value yields exactly the same-order restriction of
the unsorted list. -/
theorem mergeSort_filter_eq_of_key {le : AnalyzedSentence → AnalyzedSentence → Bool}
    (htrans : ∀ a b c, le a b = true → le b c = true → le a c = true)
    (htotal : ∀ a b, (le a b || le b a) = true)
    (hkey : ∀ a b, a.compound = b.compound → le a b = true)
    (l : List AnalyzedSentence) (c : ℚ) :
    (l.mergeSort le).filter (fun s => decide (s.compound = c)) =
      l.filter (fun s => decide (s.compound = c)) := by
  have hsub : (l.filter (fun s => decide (s.compound = c))).Sublist (l.mergeSort le) := by
    apply List.sublist_mergeSort htrans htotal
    · apply pairwise_of_all (P := fun s => s.compound = c)
      · intro a b ha hb
        exact hkey a b (ha.trans hb.symm)
      · intro a ha
        simpa using (List.mem_filter.mp ha).2
    · exact List.filter_sublist l
  have hsub2 : (l.filter (fun s => decide (s.compound = c))).Sublist
      ((l.mergeSort le).filter (fun s => decide (s.compound = c))) := by
    have := hsub.filter (fun s => decide (s.compound = c))
    rwa [List.filter_filter, show (fun s : AnalyzedSentence =>
      decide (s.compound = c) && decide (s.compound = c)) = fun s =>
      decide (s.compound = c) by funext s; cases decide (s.compound = c) <;> rfl] at this
  have hperm : ((l.mergeSort le).filter (fun s => decide (s.compound = c))).Perm
      (l.filter (fun s => decide (s.compound = c))) :=
    (List.mergeSort_perm l le).filter _
  exact (hsub2.eq_of_length hperm.length_eq.symm).symm

theorem rank_mem_take {F : List AnalyzedSentence} {le : AnalyzedSentence → AnalyzedSentence → Bool}
    {n : ℕ} {q : RankedQuote}
    (hq : q ∈ ((F.mergeSort le).take n).map
      fun s => (⟨format_quote s.text, s.compound⟩ : RankedQuote)) :
    ∃ s ∈ F, q.score = s.compound := by
  obtain ⟨s, hs, rfl⟩ := List.mem_map.mp hq
  refine ⟨s, ?_, rfl⟩
  exact (List.mergeSort_perm F le).mem_iff.mp ((List.take_sublist n _).subset hs)

theorem rank_pairwise {F : List AnalyzedSentence} {le : AnalyzedSentence → AnalyzedSentence → Bool}
    (htrans : ∀ a b c, le a b = true → le b c = true → le a c = true)
    (htotal : ∀ a b, (le a b || le b a) = true)
    (n : ℕ) (R : ℚ → ℚ → Prop) (hR : ∀ a b, le a b = true → R a.compound b.compound) :
    List.Pairwise (fun x y : RankedQuote => R x.score y.score)
      (((F.mergeSort le).take n).map
        fun s => (⟨format_quote s.text, s.compound⟩ : RankedQuote)) := by
  rw [List.pairwise_map]
  exact ((List.sorted_mergeSort htrans htotal F).sublist (List.take_sublist n _)).imp
    fun h => hR _ _ h

theorem rank_stable {l : List AnalyzedSentence} {p : AnalyzedSentence → Bool}
    {le : AnalyzedSentence → AnalyzedSentence → Bool}
    (htrans : ∀ a b c, le a b = true → le b c = true → le a c = true)
    (htotal : ∀ a b, (le a b || le b a) = true)
    (hkey : ∀ a b, a.compound = b.compound → le a b = true)
    (n : ℕ) (c : ℚ) :
    (((((l.filter p).mergeSort le).take n).map
        (fun s => (⟨format_quote s.text, s.compound⟩ : RankedQuote))).filter
      fun q => decide (q.score = c)).Sublist
      ((l.filter fun s => decide (s.compound = c)).map
        fun s => (⟨format_quote s.text, s.compound⟩ : RankedQuote)) := by
  rw [List.filter_map]
  apply List.Sublist.map
  have e : ((fun q : RankedQuote => decide (q.score = c)) ∘
      (fun s : AnalyzedSentence => (⟨format_quote s.text, s.compound⟩ : RankedQuote))) =
      fun s : AnalyzedSentence => decide (s.compound = c) := rfl
  rw [e]
  have h1 := List.Sublist.filter (fun s : AnalyzedSentence => decide (s.compound = c))
    (List.take_sublist n ((l.filter p).mergeSort le))
  rw [mergeSort_filter_eq_of_key htrans htotal hkey] at h1
  exact h1.trans (List.Sublist.filter _ (List.filter_sublist l))

/-! ### Transcript formatting lemmas -/

theorem pad2_twoDigit (i : ℤ) (h0 : 0 ≤ i) (h1 : i < 100) : twoDigitStr (pad2 i) = true := by
  interval_cases i <;> decide

theorem minutes_bounds (q : ℚ) (h0 : 0 ≤ q) (h1 : q < 6000) :
    0 ≤ pyMinutes q ∧ pyMinutes q < 100 := by
  constructor
  · exact Int.floor_nonneg.mpr (by positivity)
  · apply Int.floor_lt.mpr
    push_cast
    rw [div_lt_iff₀ (by norm_num : (0:ℚ) < 60)]
    linarith

theorem seconds_bounds (q : ℚ) : 0 ≤ pySeconds q ∧ pySeconds q < 60 := by
  unfold pySeconds pyMinutes
  have h1 : (⌊q / 60⌋ : ℚ) ≤ q / 60 := Int.floor_le _
  have h2 : q / 60 < ⌊q / 60⌋ + 1 := Int.lt_floor_add_one _
  constructor
  · apply Int.floor_nonneg.mpr
    nlinarith
  · apply Int.floor_lt.mpr
    push_cast
    nlinarith

theorem twoDigit_shape {s : String} (h : twoDigitStr s = true) :
    ∃ a b, s.data = [a, b] ∧ a.isDigit = true ∧ b.isDigit = true := by
  unfold twoDigitStr at h
  rcases hd : s.data with _ | ⟨a, _ | ⟨b, _ | ⟨c, t⟩⟩⟩ <;> rw [hd] at h <;> simp at h
  exact ⟨a, b, rfl, h.1, h.2⟩

/-- Any segment whose start offset lies in `[0, 6000)` seconds renders with
an exact two-digit `[MM:SS]` timestamp. -/
theorem formatItem_shape (it : TranscriptSegment) (h0 : 0 ≤ it.start) (h1 : it.start < 6000) :
    isMMSSLine (formatItem it) = true := by
  have hm := minutes_bounds it.start h0 h1
  have hs := seconds_bounds it.start
  obtain ⟨a, b, hab, hda, hdb⟩ := twoDigit_shape (pad2_twoDigit _ hm.1 hm.2)
  obtain ⟨c, d, hcd, hdc, hdd⟩ := twoDigit_shape (pad2_twoDigit _ hs.1 (hs.2.trans (by norm_num)))
  have hdata : (formatItem it).data =
      '[' :: a :: b :: ':' :: c :: d :: ']' :: ' ' :: (it.text.data ++ ['\n']) := by
    simp [formatItem, String.data_append, hab, hcd]
  simp [isMMSSLine, hdata, getC, hda, hdb, hdc, hdd]

theorem format_transcript_eq_join (transcript_data : List TranscriptSegment) :
    format_transcript transcript_data = String.join (transcript_data.map formatItem) := by
  rw [format_transcript, String.join, List.foldl_map]

/-! ## Claims -/

/-- Claim C1, counterexample.  With the metadata-aware strategy succeeding
on 50 characters (under the gate), the heuristic strategy failing, and the
generic scraper succeeding on a short non-empty text, the coordinator
returns the scraper's result, whereas the claim's "first strategy in
priority order with success and non-empty body text" is the metadata-aware
one — and the two results differ. -/
theorem C1_counterexample :
    (extract_content (fun _ => traf_partial) (fun _ => news_failed) (fun _ => bs_partial)
        demo_url).1 = bs_partial
      ∧ spec_first_success traf_partial news_failed bs_partial = some traf_partial
      ∧ bs_partial ≠ traf_partial := by
  decide

/-- Claim C1, amended.  When no strategy's result passes the 200-character
quality gate, the coordinator returns the generic scraper's
(BeautifulSoup) result whenever it has success status and non-empty body
text; only otherwise does it fall back to the first strategy in priority
order with success status and non-empty body text, and to the uniform
failure if there is none. -/
theorem C1_theorem (traf news bs : Url → ExtractResult) (u : Url)
    (hv : is_valid_url u = true)
    (h1 : gateOk (traf u) = false) (h2 : gateOk (news u) = false)
    (_h3 : gateOk (bs u) = false) :
    (extract_content traf news bs u).1 =
      if successNonempty (bs u) then bs u
      else (spec_first_success (traf u) (news u) (bs u)).getD all_failed_result := by
  by_cases hbs : successNonempty (bs u) = true
  · simp [extract_content, hv, h1, h2, hbs, spec_first_success]
  · have hbs' : successNonempty (bs u) = false := by simpa using hbs
    cases hf : [traf u, news u, bs u].find? successNonempty with
    | none => simp [extract_content, hv, h1, h2, hbs', spec_first_success, hf]
    | some r => simp [extract_content, hv, h1, h2, hbs', spec_first_success, hf]

/-- Claim C1, witness: all three results below the gate and the scraper
failed, so the fallback surfaces the metadata-aware partial result. -/
theorem C1_witness :
    is_valid_url demo_url = true ∧
    (extract_content (fun _ => traf_partial) (fun _ => news_failed) (fun _ => bs_failed)
        demo_url).1 =
      if successNonempty bs_failed then bs_failed
      else (spec_first_success traf_partial news_failed bs_failed).getD all_failed_result :=
  ⟨by decide, C1_theorem (fun _ => traf_partial) (fun _ => news_failed) (fun _ => bs_failed)
    demo_url (by decide) (by decide) (by decide) (by decide)⟩

set_option maxRecDepth 10000 in
/-- Claim C2, counterexample.  With the metadata-aware strategy succeeding
on exactly 200 characters (so `≥ 200` holds but the strict gate fails),
both remaining strategies are invoked, refuting the claimed short-circuit
at 200 characters. -/
theorem C2_counterexample :
    extract_content (fun _ => traf_200) (fun _ => news_failed) (fun _ => bs_failed) demo_url
        = (traf_200, [Strategy.trafilatura, Strategy.newspaper3k, Strategy.beautifulsoup])
      ∧ (traf_200.status = "success" ∧ ∃ t, traf_200.text = some t ∧ 200 ≤ t.length)
      ∧ [Strategy.trafilatura, Strategy.newspaper3k, Strategy.beautifulsoup]
          ≠ [Strategy.trafilatura] := by
  refine ⟨by decide, ⟨by decide, String.mk (List.replicate 200 'b'), by decide, by decide⟩,
    by decide⟩

/-- Claim C2, amended.  For every URL where the metadata-aware
(first-priority) strategy succeeds with body text of strictly more than
200 characters, the coordinator returns exactly that result and invokes no
other strategy. -/
theorem C2_theorem (traf news bs : Url → ExtractResult) (u : Url)
    (hv : is_valid_url u = true) (hs : (traf u).status = "success")
    {t : String} (ht : (traf u).text = some t) (hlen : 200 < t.length) :
    extract_content traf news bs u = (traf u, [Strategy.trafilatura]) := by
  have hne : t ≠ "" := by
    intro he
    rw [he] at hlen
    simp at hlen
  have hg : gateOk (traf u) = true := by
    simp [gateOk, textTruthy, textLen, hs, ht, hne, hlen]
  simp [extract_content, hv, hg]

set_option maxRecDepth 10000 in
/-- Claim C2, witness at a 201-character success. -/
theorem C2_witness :
    extract_content (fun _ => traf_201) (fun _ => news_failed) (fun _ => bs_failed) demo_url
      = (traf_201, [Strategy.trafilatura]) :=
  C2_theorem _ _ _ demo_url (by decide) (by decide)
    (t := String.mk (List.replicate 201 'c')) (by decide) (by decide)

/-- Claim C3, counterexample to idempotence of the text normalizer:
removing the inner timestamp of `"[1[00:00]2:34]"` re-exposes the marker
`"[12:34]"`, which a second normalization pass removes. -/
theorem C3_counterexample :
    clean_transcript (clean_transcript "[1[00:00]2:34]") ≠ clean_transcript "[1[00:00]2:34]" := by
  decide

/-- Claim C3, amended.  The normalizer is idempotent on every input whose
normalized form is left unchanged by timestamp removal (timestamp removal
can re-expose a marker by juxtaposition, which breaks idempotence in
general). -/
theorem C3_theorem (x : String)
    (h : removeTs (clean_transcript x).data = (clean_transcript x).data) :
    clean_transcript (clean_transcript x) = clean_transcript x := by
  have hd : ∀ l : List Char, (String.mk l).data = l := fun _ => rfl
  unfold clean_transcript at h ⊢
  rw [hd] at h
  rw [hd, h]
  rw [stripCollapse_idem]

/-- Claim C3, witness on an ordinary timestamped line. -/
theorem C3_witness :
    clean_transcript (clean_transcript "[00:00] Hello  world") =
      clean_transcript "[00:00] Hello  world" :=
  C3_theorem "[00:00] Hello  world" (by decide)

/-- Claim C4: the normalizer strips `[MM:SS]` markers, collapses whitespace
runs and trims; on the specification's end-to-end example it produces
exactly the expected output. -/
theorem C4_theorem :
    clean_transcript "[00:00] Hello world\n[00:05] This is a test\n[00:10] Goodbye\n" =
      "Hello world This is a test Goodbye" := by
  decide

/-- Claim C5: every element returned by the sentence segmenter has trimmed
length strictly between 20 and 200 characters. -/
theorem C5_theorem (text s : String) (h : s ∈ split_into_sentences text) :
    20 < (pyStripS s).length ∧ (pyStripS s).length < 200 := by
  simp only [split_into_sentences] at h
  have h2 := (List.mem_filter.mp h).2
  simp at h2
  exact h2

/-- Claim C5, witness on a short unpunctuated text that survives the
filter unchanged. -/
theorem C5_witness :
    20 < (pyStripS "abcdefghij klmnopqrst uvwxyz abcd").length ∧
      (pyStripS "abcdefghij klmnopqrst uvwxyz abcd").length < 200 :=
  C5_theorem "abcdefghij klmnopqrst uvwxyz abcd" _ (by decide)

/-- Claim C6: for every candidate list and every `top_n`, ranking with
polarity `"positive"` yields scores that are all greater than 0.2 and
non-increasing, ranking with polarity `"negative"` yields scores that are
all less than -0.2 and non-decreasing, and in both cases the quotes at any
fixed score value appear in their original candidate order (stability of
the sort). -/
theorem C6_theorem (analyzed_sentences : List AnalyzedSentence) (top_n : ℕ) :
    ((rank_quotes analyzed_sentences top_n "positive").all
        fun q => decide ((0.2 : ℚ) < q.score)) = true
    ∧ List.Pairwise (fun x y : RankedQuote => y.score ≤ x.score)
        (rank_quotes analyzed_sentences top_n "positive")
    ∧ (∀ c : ℚ, ((rank_quotes analyzed_sentences top_n "positive").filter
          fun q => decide (q.score = c)).Sublist
        ((analyzed_sentences.filter fun s => decide (s.compound = c)).map
          fun s => (⟨format_quote s.text, s.compound⟩ : RankedQuote)))
    ∧ ((rank_quotes analyzed_sentences top_n "negative").all
        fun q => decide (q.score < -(0.2 : ℚ))) = true
    ∧ List.Pairwise (fun x y : RankedQuote => x.score ≤ y.score)
        (rank_quotes analyzed_sentences top_n "negative")
    ∧ (∀ c : ℚ, ((rank_quotes analyzed_sentences top_n "negative").filter
          fun q => decide (q.score = c)).Sublist
        ((analyzed_sentences.filter fun s => decide (s.compound = c)).map
          fun s => (⟨format_quote s.text, s.compound⟩ : RankedQuote))) := by
  have hp : rank_quotes analyzed_sentences top_n "positive" =
      (((analyzed_sentences.filter fun s => decide ((0.2 : ℚ) < s.compound)).mergeSort
        leDesc).take top_n).map fun s => (⟨format_quote s.text, s.compound⟩ : RankedQuote) := by
    simp [rank_quotes]
  have hn : rank_quotes analyzed_sentences top_n "negative" =
      (((analyzed_sentences.filter fun s => decide (s.compound < -(0.2 : ℚ))).mergeSort
        leAsc).take top_n).map fun s => (⟨format_quote s.text, s.compound⟩ : RankedQuote) := by
    simp [rank_quotes]
  refine ⟨?_, ?_, ?_, ?_, ?_, ?_⟩
  · rw [hp]
    apply List.all_eq_true.mpr
    intro q hq
    obtain ⟨s, hsF, he⟩ := rank_mem_take hq
    have hps := (List.mem_filter.mp hsF).2
    simp at hps ⊢
    rw [he]
    exact hps
  · rw [hp]
    exact rank_pairwise leDesc_trans leDesc_total top_n (fun x y => y ≤ x)
      (fun a b hab => by simpa [leDesc] using hab)
  · intro c
    rw [hp]
    exact rank_stable leDesc_trans leDesc_total leDesc_key top_n c
  · rw [hn]
    apply List.all_eq_true.mpr
    intro q hq
    obtain ⟨s, hsF, he⟩ := rank_mem_take hq
    have hps := (List.mem_filter.mp hsF).2
    simp at hps ⊢
    rw [he]
    exact hps
  · rw [hn]
    exact rank_pairwise leAsc_trans leAsc_total top_n (fun x y => x ≤ y)
      (fun a b hab => by simpa [leAsc] using hab)
  · intro c
    rw [hn]
    exact rank_stable leAsc_trans leAsc_total leAsc_key top_n c

/-- Claim C7: when every strategy returns a failed result, the coordinator
returns the single uniform failure message, independent of the
strategy-specific failure details, after invoking all three strategies and
nothing more. -/
theorem C7_theorem (traf news bs : Url → ExtractResult) (u : Url)
    (hv : is_valid_url u = true)
    (h1 : (traf u).status = "error") (h2 : (news u).status = "error")
    (h3 : (bs u).status = "error") :
    extract_content traf news bs u =
      (all_failed_result,
        [Strategy.trafilatura, Strategy.newspaper3k, Strategy.beautifulsoup]) := by
  have g1 : gateOk (traf u) = false := by simp [gateOk, h1]
  have g2 : gateOk (news u) = false := by simp [gateOk, h2]
  have s1 : successNonempty (traf u) = false := by simp [successNonempty, h1]
  have s2 : successNonempty (news u) = false := by simp [successNonempty, h2]
  have s3 : successNonempty (bs u) = false := by simp [successNonempty, h3]
  simp [extract_content, hv, g1, g2, s1, s2, s3, List.find?]

/-- Claim C7, witness with three concrete failed strategy results. -/
theorem C7_witness :
    extract_content (fun _ => bs_failed) (fun _ => news_failed) (fun _ => bs_failed) demo_url =
      (all_failed_result,
        [Strategy.trafilatura, Strategy.newspaper3k, Strategy.beautifulsoup]) :=
  C7_theorem _ _ _ demo_url (by decide) (by decide) (by decide) (by decide)

/-- Claim C8: for every URL whose parsed form lacks a scheme or a host
component, the coordinator fails immediately with the invalid-URL error
and invokes no extraction strategy. -/
theorem C8_theorem (traf news bs : Url → ExtractResult) (u : Url)
    (h : u.scheme = "" ∨ u.netloc = "") :
    extract_content traf news bs u = (invalid_url_result, []) := by
  have hv : is_valid_url u = false := by
    rcases h with h | h <;> simp [is_valid_url, h]
  simp [extract_content, hv]

/-- Claim C8, witness on a URL with an empty scheme. -/
theorem C8_witness :
    extract_content (fun _ => traf_200) (fun _ => news_failed) (fun _ => bs_failed)
        { scheme := "", netloc := "example.com" } = (invalid_url_result, []) :=
  C8_theorem _ _ _ _ (Or.inl rfl)

/-- Claim C9, counterexample.  A segment starting at 6000 seconds renders
as `"[100:00] hi\n"`, whose three-digit minutes field breaks the exact
`[MM:SS]` form. -/
theorem C9_counterexample :
    format_transcript [long_segment] = "[100:00] hi\n"
      ∧ isMMSSLine "[100:00] hi\n" = false := by
  have hm : pyMinutes (6000 : ℚ) = 100 := by
    unfold pyMinutes
    norm_num
  have hs : pySeconds (6000 : ℚ) = 0 := by
    unfold pySeconds
    rw [hm]
    norm_num
  constructor
  · have hstart : long_segment.start = (6000 : ℚ) := rfl
    simp only [format_transcript, List.foldl, formatItem, hstart, hm, hs]
    decide
  · decide

/-- Claim C9, amended.  For segments with start offsets in `[0, 6000)`
seconds, the formatter renders the concatenation of one line per segment,
and each line has exactly the `[MM:SS] text` newline-terminated form with
two-digit zero-padded fields; beyond 6000 seconds the minutes field grows
past two digits. -/
theorem C9_theorem (transcript_data : List TranscriptSegment)
    (h : ∀ it ∈ transcript_data, 0 ≤ it.start ∧ it.start < 6000) :
    format_transcript transcript_data = String.join (transcript_data.map formatItem)
      ∧ ∀ it ∈ transcript_data, isMMSSLine (formatItem it) = true :=
  ⟨format_transcript_eq_join transcript_data,
    fun it hit => formatItem_shape it (h it hit).1 (h it hit).2⟩

/-- Claim C9, witness on a single segment starting at 65 seconds. -/
theorem C9_witness :
    format_transcript [({ text := "hi", start := 65 } : TranscriptSegment)] =
        String.join ([({ text := "hi", start := 65 } : TranscriptSegment)].map formatItem)
      ∧ ∀ it ∈ [({ text := "hi", start := 65 } : TranscriptSegment)],
          isMMSSLine (formatItem it) = true :=
  C9_theorem [{ text := "hi", start := 65 }] (by
    intro it hit
    simp at hit
    subst hit
    constructor <;> norm_num)

/-- Claim C10: any `sentiment_type` other than the exact string
`"positive"` takes the `else` branch and behaves identically to
`"negative"`. -/
theorem C10_theorem (polarity_scores : String → SentimentScores) (transcript : String)
    (top_n : ℕ) (sentiment_type : String) (h : sentiment_type ≠ "positive") :
    get_top_quotes polarity_scores transcript top_n sentiment_type =
      get_top_quotes polarity_scores transcript top_n "negative" := by
  simp only [get_top_quotes, rank_quotes, if_neg h]
  rw [if_neg (by decide : ¬("negative" = "positive"))]

/-- Claim C10, witness at `sentiment_type = "neutral"`. -/
theorem C10_witness :
    get_top_quotes (fun _ => ⟨0, 0, 0, 0⟩) "" 5 "neutral" =
      get_top_quotes (fun _ => ⟨0, 0, 0, 0⟩) "" 5 "negative" :=
  C10_theorem _ _ _ _ (by decide)

end YT

